import Mathlib

/-!
Verification of the botmem multi-store memory model.

This file shallowly embeds the four typed stores (block, archival, graph,
summary), the context assembler and the extraction pipeline's apply phase of
the botmem repository.  Go strings are modelled as `List Char`, the SQLite
database file as an explicit `DB` record of table contents plus the
auto-increment counters and a logical clock standing for `CURRENT_TIMESTAMP`.
Store operations that can fail logically (unique-key conflicts, missing rows)
return `Except Err`; engine/transport failures of external collaborators are
modelled by abstract operation records (`AssemblerOps`, `IngestOps`) so that
error-propagation behaviour can be stated for every possible failure.
-/

namespace Botmem

/-- Go strings, modelled as their character sequences. -/
abbrev Str := List Char

/-- Errors surfaced by store operations.  `conflict` models a unique-key
violation, `notFound` models `sql.ErrNoRows`, `other` models every other
engine or collaborator failure.  The payload is the error message. -/
inductive Err where
  | conflict : Str → Err
  | notFound : Str → Err
  | other : Str → Err
deriving DecidableEq

/-- Wrapping an error with context, as `fmt.Errorf("ctx: %w", err)` does:
the message gains a prefix, the error kind is preserved. -/
def Err.wrap : Err → Str → Err
  | .conflict m, ctx => .conflict (ctx ++ m)
  | .notFound m, ctx => .notFound (ctx ++ m)
  | .other m, ctx => .other (ctx ++ m)

/-- A working-memory block (`memory.Block`). -/
structure Block where
  id : Int
  label : Str
  blockType : Str
  content : Str
  createdAt : Nat
  updatedAt : Nat
deriving DecidableEq

/-- An archival fact row (`memory.ArchivalEntry`); `embedding = none` models a
NULL / nil byte slice. -/
structure ArchivalEntry where
  id : Int
  content : Str
  tags : Str
  embedding : Option (List Nat)
  createdAt : Nat
deriving DecidableEq

/-- A knowledge-graph entity (`memory.Entity`). -/
structure Entity where
  id : Int
  name : Str
  entityType : Str
  createdAt : Nat
deriving DecidableEq

/-- A row of the `relations` table: endpoints are entity ids. -/
structure RelationRow where
  id : Int
  subjectId : Int
  predicate : Str
  objectId : Int
  metadata : Str
  createdAt : Nat
deriving DecidableEq

/-- The relation view returned by graph queries (`memory.Relation`): endpoint
names resolved by joins against `entities`. -/
structure Relation where
  id : Int
  subject : Str
  predicate : Str
  object : Str
  metadata : Str
  createdAt : Nat
deriving DecidableEq

/-- A conversation summary row (`memory.Summary`). -/
structure Summary where
  id : Int
  level : Int
  content : Str
  sourceIds : Str
  createdAt : Nat
deriving DecidableEq

/-- The embedded SQLite database: the five table groups, the auto-increment
counter of each table, and a logical clock standing for CURRENT_TIMESTAMP. -/
structure DB where
  blocks : List Block
  archival : List ArchivalEntry
  entities : List Entity
  relations : List RelationRow
  summaries : List Summary
  nextBlockId : Int
  nextArchivalId : Int
  nextEntityId : Int
  nextRelationId : Int
  nextSummaryId : Int
  now : Nat
deriving DecidableEq

/-- A freshly created database (auto-increment counters start at 1). -/
def emptyDB : DB := ⟨[], [], [], [], [], 1, 1, 1, 1, 1, 0⟩

/-- Insertion into a list sorted by `le` (used to model SQL ORDER BY). -/
def insertSorted (le : α → α → Bool) (x : α) : List α → List α
  | [] => [x]
  | y :: ys => if le x y then x :: y :: ys else y :: insertSorted le x ys

/-- Insertion sort by `le`, modelling SQL ORDER BY clauses. -/
def sortByLe (le : α → α → Bool) (xs : List α) : List α :=
  xs.foldr (insertSorted le) []

/-- Lexicographic order on strings, modelling SQLite's BINARY collation for
ORDER BY over TEXT columns. -/
def strLe : Str → Str → Bool
  | [], _ => true
  | _ :: _, [] => false
  | a :: as, b :: bs => if a = b then strLe as bs else decide (a < b)

/-! ### Block store (`internal/memory/block.go`) -/

def getBlockNotFoundMsg (label : Str) : Str :=
  ("get block \"".data) ++ label ++ ("\": sql: no rows in result set".data)

def createBlockConflictMsg : Str :=
  "create block: UNIQUE constraint failed: memory_blocks.label".data

/-- BlockStore.GetByLabel: SELECT by unique label, NotFound when absent. -/
def blockGetByLabel (db : DB) (label : Str) : Except Err Block :=
  match db.blocks.find? (fun b => decide (b.label = label)) with
  | some b => .ok b
  | none => .error (.notFound (getBlockNotFoundMsg label))

/-- BlockStore.GetByID: SELECT by primary key. -/
def blockGetByID (db : DB) (id : Int) : Except Err Block :=
  match db.blocks.find? (fun b => decide (b.id = id)) with
  | some b => .ok b
  | none => .error (.notFound ("get block: sql: no rows in result set".data))

/-- BlockStore.Create: defaults the type to "core", INSERT fails on a
duplicate label (UNIQUE constraint), then re-reads the row by id. -/
def blockCreate (db : DB) (label blockType content : Str) :
    Except Err (Block × DB) :=
  let bt := if blockType = [] then ("core".data) else blockType
  if db.blocks.any (fun b => decide (b.label = label)) then
    .error (.conflict createBlockConflictMsg)
  else
    let b : Block := ⟨db.nextBlockId, label, bt, content, db.now, db.now⟩
    let db' : DB := { db with
      blocks := db.blocks ++ [b]
      nextBlockId := db.nextBlockId + 1
      now := db.now + 1 }
    match blockGetByID db' b.id with
    | .error e => .error e
    | .ok b' => .ok (b', db')

/-- The UPDATE statement of BlockStore.Update: replaces content and bumps
updated_at on every row carrying the label (a no-op when the label is
absent — SQL UPDATE of zero rows succeeds). -/
def blockUpdateExec (db : DB) (label content : Str) : DB :=
  { db with
    blocks := db.blocks.map (fun b =>
      if b.label = label then { b with content := content, updatedAt := db.now }
      else b)
    now := db.now + 1 }

/-- BlockStore.Update: UPDATE then re-read by label; the re-read surfaces
NotFound when the label does not exist. -/
def blockUpdate (db : DB) (label content : Str) : Except Err (Block × DB) :=
  let db' := blockUpdateExec db label content
  match blockGetByLabel db' label with
  | .error e => .error e
  | .ok b => .ok (b, db')

/-- BlockStore.Delete: DELETE WHERE label = ?; succeeds whether or not a row
matched. -/
def blockDelete (db : DB) (label : Str) : Except Err DB :=
  .ok { db with
    blocks := db.blocks.filter (fun b => !decide (b.label = label))
    now := db.now + 1 }

/-- BlockStore.List: optional type filter, ORDER BY label. -/
def blockList (db : DB) (blockType : Str) : List Block :=
  let rows := if blockType = [] then db.blocks
    else db.blocks.filter (fun b => decide (b.blockType = blockType))
  sortByLe (fun a b => strLe a.label b.label) rows

/-! ### Archival store (`internal/memory/archival.go`) -/

/-- ArchivalStore.GetByID: SELECT of the full row, embedding included. -/
def archivalGetByID (db : DB) (id : Int) : Except Err ArchivalEntry :=
  match db.archival.find? (fun r => decide (r.id = id)) with
  | some r => .ok r
  | none => .error (.notFound ("get archival: sql: no rows in result set".data))

/-- ArchivalStore.Add: joins the tags with commas (strings.Join), INSERTs,
then re-reads by id. -/
def archivalAdd (db : DB) (content : Str) (tags : List Str)
    (embedding : Option (List Nat)) : Except Err (ArchivalEntry × DB) :=
  let tagStr := List.intercalate (",".data) tags
  let en : ArchivalEntry := ⟨db.nextArchivalId, content, tagStr, embedding, db.now⟩
  let db' : DB := { db with
    archival := db.archival ++ [en]
    nextArchivalId := db.nextArchivalId + 1
    now := db.now + 1 }
  match archivalGetByID db' en.id with
  | .error e => .error e
  | .ok e2 => .ok (e2, db')

/-- Substring containment, modelling SQL `LIKE '%needle%'`. -/
def containsSub (haystack needle : Str) : Bool :=
  haystack.tails.any (fun t => List.isPrefixOf needle t)

/-- ArchivalStore.Search: the FTS5 MATCH + rank engine is external, so it is a
parameter `fts` returning the matching rows in relevance order; the SELECT
scans only id, content, tags, created_at, so the returned entries carry no
embedding; default limit 10 for non-positive input. -/
def archivalSearch (fts : Str → List ArchivalEntry → List ArchivalEntry)
    (db : DB) (query : Str) (limit : Int) : List ArchivalEntry :=
  let lim : Int := if limit ≤ 0 then 10 else limit
  ((fts query db.archival).take lim.toNat).map (fun r => { r with embedding := none })

/-- ArchivalStore.List: optional `LIKE '%tag%'` filter on tags, ORDER BY
created_at DESC, default limit 50; the SELECT scans no embedding column. -/
def archivalList (db : DB) (tag : Str) (limit : Int) : List ArchivalEntry :=
  let lim : Int := if limit ≤ 0 then 50 else limit
  let rows := if tag = [] then db.archival
    else db.archival.filter (fun r => containsSub r.tags tag)
  ((sortByLe (fun a b => decide (b.createdAt ≤ a.createdAt)) rows).take lim.toNat).map
    (fun r => { r with embedding := none })

/-- ArchivalStore.AllWithEmbeddings: full rows whose embedding IS NOT NULL. -/
def allWithEmbeddings (db : DB) : List ArchivalEntry :=
  db.archival.filter (fun r => r.embedding.isSome)

/-! ### Graph store (`internal/memory/graph.go`) -/

/-- GraphStore.EnsureEntity: INSERT OR IGNORE then SELECT the id by name;
idempotent, the type argument is ignored when the name already exists. -/
def ensureEntity (db : DB) (name entityType : Str) : Except Err (Int × DB) :=
  match db.entities.find? (fun e => decide (e.name = name)) with
  | some e => .ok (e.id, db)
  | none =>
    let e : Entity := ⟨db.nextEntityId, name, entityType, db.now⟩
    .ok (e.id, { db with
      entities := db.entities ++ [e]
      nextEntityId := db.nextEntityId + 1
      now := db.now + 1 })

/-- GraphStore.AddRelation: auto-vivifies both endpoints with an empty type,
then INSERT OR IGNORE under the UNIQUE(subject_id, predicate, object_id)
constraint — a duplicate triple is silently absorbed. -/
def graphAddRelation (db : DB) (subject predicate objectName metadata : Str) :
    Except Err DB :=
  match ensureEntity db subject [] with
  | .error e => .error e
  | .ok (subID, db1) =>
    match ensureEntity db1 objectName [] with
    | .error e => .error e
    | .ok (objID, db2) =>
      if db2.relations.any (fun r =>
          decide (r.subjectId = subID ∧ r.predicate = predicate ∧ r.objectId = objID)) then
        .ok db2
      else
        .ok { db2 with
          relations := db2.relations ++
            [⟨db2.nextRelationId, subID, predicate, objID, metadata, db2.now⟩]
          nextRelationId := db2.nextRelationId + 1
          now := db2.now + 1 }

/-- The id some entity name resolves to (`SELECT id FROM entities WHERE name = ?`). -/
def entityIdOf (db : DB) (name : Str) : Option Int :=
  (db.entities.find? (fun e => decide (e.name = name))).map (fun e => e.id)

/-- The name an entity id resolves to, as the JOINs of the graph queries do. -/
def entityNameOf (db : DB) (id : Int) : Option Str :=
  (db.entities.find? (fun e => decide (e.id = id))).map (fun e => e.name)

/-- The join of a relation row against `entities` for both endpoints; `none`
when an endpoint id dangles (the inner join drops the row). -/
def relViewOf (db : DB) (r : RelationRow) : Option Relation :=
  match db.entities.find? (fun e => decide (e.id = r.subjectId)) with
  | none => none
  | some se =>
    match db.entities.find? (fun e => decide (e.id = r.objectId)) with
    | none => none
    | some oe => some ⟨r.id, se.name, r.predicate, oe.name, r.metadata, r.createdAt⟩

/-- The WHERE clause of QueryEntity applied to one joined row: the row is kept
when the name is its subject or its object. -/
def queryFilter (db : DB) (name : Str) (r : RelationRow) : Option Relation :=
  match relViewOf db r with
  | some v => if v.subject = name ∨ v.object = name then some v else none
  | none => none

/-- GraphStore.QueryEntity: relations where the name is subject OR object,
ORDER BY created_at DESC. -/
def queryEntity (db : DB) (name : Str) : List Relation :=
  sortByLe (fun a b => decide (b.createdAt ≤ a.createdAt))
    (db.relations.filterMap (queryFilter db name))

/-- GraphStore.ListEntities: optional type filter, ORDER BY name. -/
def listEntities (db : DB) (entityType : Str) : List Entity :=
  let rows := if entityType = [] then db.entities
    else db.entities.filter (fun e => decide (e.entityType = entityType))
  sortByLe (fun a b => strLe a.name b.name) rows

/-! ### Summary store (`internal/memory/summary.go`) -/

/-- SummaryStore.GetByID. -/
def summaryGetByID (db : DB) (id : Int) : Except Err Summary :=
  match db.summaries.find? (fun s => decide (s.id = id)) with
  | some s => .ok s
  | none => .error (.notFound ("get summary: sql: no rows in result set".data))

/-- SummaryStore.Add: INSERT then re-read by id. -/
def summaryAdd (db : DB) (level : Int) (content sourceIds : Str) :
    Except Err (Summary × DB) :=
  let sm : Summary := ⟨db.nextSummaryId, level, content, sourceIds, db.now⟩
  let db' : DB := { db with
    summaries := db.summaries ++ [sm]
    nextSummaryId := db.nextSummaryId + 1
    now := db.now + 1 }
  match summaryGetByID db' sm.id with
  | .error e => .error e
  | .ok s2 => .ok (s2, db')

/-- SummaryStore.List: level filter, ORDER BY created_at DESC then id DESC,
default limit 20 for non-positive input. -/
def summaryList (db : DB) (level limit : Int) : List Summary :=
  let lim : Int := if limit ≤ 0 then 20 else limit
  ((sortByLe (fun a b =>
      (decide (b.createdAt < a.createdAt) ||
       (decide (a.createdAt = b.createdAt) && decide (b.id ≤ a.id))))
    (db.summaries.filter (fun s => decide (s.level = level)))).take lim.toNat)

/-! ### Context assembler (`internal/context/context.go`) -/

/-- The assembled context payload (`context.Payload`). -/
structure Payload where
  coreBlocks : List Block
  summaries : List Summary
  graph : List Relation
deriving DecidableEq

/-- The reads `context.Build` performs.  Each may fail with an engine error,
which lets failure propagation be stated for every possible failing read; the
concrete store model above realises the non-failing case. -/
structure AssemblerOps where
  listBlocks : Str → Except Err (List Block)
  listSummaries : Int → Int → Except Err (List Summary)
  listEntities : Str → Except Err (List Entity)
  queryEntity : Str → Except Err (List Relation)

/-- The relation-gathering loop of `context.Build`: for each entity, query its
relations — a failing query is skipped with `continue` — and append the
relations not seen yet, tracking seen relation ids. -/
def collectRelations (ops : AssemblerOps) :
    List Entity → List Int × List Relation → List Int × List Relation
  | [], st => st
  | e :: rest, st =>
    match ops.queryEntity e.name with
    | .error _ => collectRelations ops rest st
    | .ok rels =>
      collectRelations ops rest
        (rels.foldl (fun st r =>
          if st.1.contains r.id then st else (st.1 ++ [r.id], st.2 ++ [r])) st)

/-- context.Build: list core blocks, then the five most recent level-0
summaries, then all entities, then gather each entity's relations de-duplicated
by id; a failure of one of the three list reads aborts with a wrapped error. -/
def build (ops : AssemblerOps) : Except Err Payload :=
  match ops.listBlocks ("core".data) with
  | .error e => .error (e.wrap ("load core blocks: ".data))
  | .ok coreBlocks =>
    match ops.listSummaries 0 5 with
    | .error e => .error (e.wrap ("load summaries: ".data))
    | .ok recents =>
      match ops.listEntities [] with
      | .error e => .error (e.wrap ("load entities: ".data))
      | .ok entities =>
        .ok ⟨coreBlocks, recents, (collectRelations ops entities ([], [])).2⟩

/-! ### Extraction pipeline (`internal/ingest/ingest.go`) -/

/-- One block update of an extraction result. -/
structure BlockUpdate where
  label : Str
  content : Str
deriving DecidableEq

/-- One extracted fact. -/
structure Fact where
  content : Str
  tags : List Str
deriving DecidableEq

/-- One extracted subject-predicate-object triplet. -/
structure Triplet where
  subject : Str
  predicate : Str
  object : Str
deriving DecidableEq

/-- The structured result the language-model backend returns
(`ingest.ExtractionResult`). -/
structure ExtractionResult where
  blockUpdates : List BlockUpdate
  facts : List Fact
  triplets : List Triplet
  summary : Str
deriving DecidableEq

/-- The store writes and the optional embedding provider `ingest.Run` uses,
over an abstract database state `σ`.  Every write may fail (the engine can
always fail); a failing write returns the error and leaves the state with the
caller — there is no rollback channel.  `embedProv` returns the already
serialized vector bytes; `none` models a nil provider. -/
structure IngestOps (σ : Type) where
  getByLabel : σ → Str → Except Err Block
  createBlock : σ → Str → Str → Str → Except Err (Block × σ)
  updateBlock : σ → Str → Str → Except Err (Block × σ)
  embedProv : Option (Str → Except Err (List Nat))
  addArchival : σ → Str → List Str → Option (List Nat) → Except Err (ArchivalEntry × σ)
  addRelation : σ → Str → Str → Str → Str → Except Err σ
  addSummary : σ → Int → Str → Str → Except Err (Summary × σ)

/-- Quoting of a label as `%q` renders it inside error messages. -/
def quoteStr (s : Str) : Str := '\"' :: (s ++ ['\"'])

/-- The embedding attempted for a fact: only with a provider, and a failing
`Embed` call is swallowed, leaving the embedding empty. -/
def embedOf (ops : IngestOps σ) (content : Str) : Option (List Nat) :=
  match ops.embedProv with
  | none => none
  | some embed =>
    match embed content with
    | .ok vec => some vec
    | .error _ => none

/-- The block-update phase of `ingest.Run`: update-if-exists else create with
type "core"; a failing write aborts with the wrapped error and the state as
committed so far. -/
def applyBlockUpdates (ops : IngestOps σ) (s : σ) :
    List BlockUpdate → σ × Option Err
  | [] => (s, none)
  | bu :: rest =>
    match ops.getByLabel s bu.label with
    | .error _ =>
      match ops.createBlock s bu.label ("core".data) bu.content with
      | .error e => (s, some (e.wrap (("create block ".data) ++ quoteStr bu.label ++ (": ".data))))
      | .ok (_, s') => applyBlockUpdates ops s' rest
    | .ok _ =>
      match ops.updateBlock s bu.label bu.content with
      | .error e => (s, some (e.wrap (("update block ".data) ++ quoteStr bu.label ++ (": ".data))))
      | .ok (_, s') => applyBlockUpdates ops s' rest

/-- The fact phase of `ingest.Run`: per fact, best-effort embedding, then the
archival write; a failing write aborts with the wrapped error. -/
def applyFacts (ops : IngestOps σ) (s : σ) : List Fact → σ × Option Err
  | [] => (s, none)
  | f :: rest =>
    match ops.addArchival s f.content f.tags (embedOf ops f.content) with
    | .error e => (s, some (e.wrap ("add fact: ".data)))
    | .ok (_, s') => applyFacts ops s' rest

/-- The triplet phase of `ingest.Run`: add each relation with empty metadata. -/
def applyTriplets (ops : IngestOps σ) (s : σ) : List Triplet → σ × Option Err
  | [] => (s, none)
  | t :: rest =>
    match ops.addRelation s t.subject t.predicate t.object [] with
    | .error e => (s, some (e.wrap ("add triplet: ".data)))
    | .ok s' => applyTriplets ops s' rest

/-- The summary step of `ingest.Run`: a non-empty summary is added at level 0. -/
def applySummaryStep (ops : IngestOps σ) (s : σ) (summary : Str) : σ × Option Err :=
  if summary = [] then (s, none)
  else
    match ops.addSummary s 0 summary [] with
    | .error e => (s, some (e.wrap ("add summary: ".data)))
    | .ok (_, s') => (s', none)

/-- The apply phase of `ingest.Run` (lines after the backend call): block
updates, then facts, then triplets, then the summary, each phase entered only
when the previous one fully succeeded; the pair carries the database state as
committed when the run ends or aborts. -/
def runApply (ops : IngestOps σ) (s : σ) (res : ExtractionResult) : σ × Option Err :=
  match applyBlockUpdates ops s res.blockUpdates with
  | (s1, some e) => (s1, some e)
  | (s1, none) =>
    match applyFacts ops s1 res.facts with
    | (s2, some e) => (s2, some e)
    | (s2, none) =>
      match applyTriplets ops s2 res.triplets with
      | (s3, some e) => (s3, some e)
      | (s3, none) => applySummaryStep ops s3 res.summary

/-- The concrete realisation of the write interface by the store model, with a
pluggable embedding provider: this is `ingest.Run` wired to the real stores. -/
def memIngestOps (prov : Option (Str → Except Err (List Nat))) : IngestOps DB where
  getByLabel := blockGetByLabel
  createBlock := blockCreate
  updateBlock := blockUpdate
  embedProv := prov
  addArchival := archivalAdd
  addRelation := graphAddRelation
  addSummary := summaryAdd

/-! ### Code-fence stripping and backend response handling -/

/-- Whitespace as Go's `unicode.IsSpace` classifies the characters relevant to
`strings.TrimSpace` in the Latin-1 range. -/
def goIsSpace (c : Char) : Bool :=
  c = ' ' || c = '\t' || c = '\n' || c = '\r' ||
  c = Char.ofNat 0x0B || c = Char.ofNat 0x0C ||
  c = Char.ofNat 0x85 || c = Char.ofNat 0xA0

/-- Trailing-whitespace removal. -/
def trimRight (s : Str) : Str := (s.reverse.dropWhile goIsSpace).reverse

/-- strings.TrimSpace: drop leading and trailing whitespace. -/
def trimSpace (s : Str) : Str := (trimRight s).dropWhile goIsSpace

/-- The opening/closing markdown fence marker. -/
def fenceMarker : Str := "```".data

/-- ingest.stripCodeFences: trim, drop an opening fence line (everything up to
and including the first newline) when the text starts with a fence, drop a
closing fence, trim again. -/
def stripCodeFences (s : Str) : Str :=
  let s1 := trimSpace s
  let s2 :=
    if List.isPrefixOf fenceMarker s1 then
      match s1.findIdx? (fun c => decide (c = '\n')) with
      | some idx => s1.drop (idx + 1)
      | none => s1
    else s1
  let s3 := if List.isSuffixOf fenceMarker s2 then s2.take (s2.length - 3) else s2
  trimSpace s3

/-- The response handling of `ingest.extractWithClaude` after the subprocess
returns: trim the stdout, fail on empty output, strip code fences, then decode
as the extraction schema (the JSON decoder is external, passed as `decode`). -/
def claudeParseOutput (decode : Str → Except Err ExtractionResult)
    (stdout : Str) : Except Err ExtractionResult :=
  let output := trimSpace stdout
  if output = [] then .error (.other ("empty response from claude -p".data))
  else decode (stripCodeFences output)

/-- The response handling of `ingest.extractWithOllama` after the chat
envelope is decoded: the message content is passed to the extraction-schema
decoder verbatim, with no fence stripping. -/
def ollamaParseContent (decode : Str → Except Err ExtractionResult)
    (content : Str) : Except Err ExtractionResult :=
  decode content

/-- The response handling of `ingest.extractWithAnthropic` after the API
envelope is decoded: the first content text is passed to the decoder verbatim,
with no fence stripping. -/
def anthropicParseContent (decode : Str → Except Err ExtractionResult)
    (text : Str) : Except Err ExtractionResult :=
  decode text

/-! ### Concrete instances used to exercise the theorems -/

/-- An entity present in the graph of the failing-query scenario. -/
def cexEntityA : Entity := ⟨1, "A".data, [], 0⟩

/-- Assembler reads where the three list reads succeed (one entity exists) but
every relation query fails with an engine error. -/
def cexAssemblerOps : AssemblerOps where
  listBlocks := fun _ => .ok []
  listSummaries := fun _ _ => .ok []
  listEntities := fun _ => .ok [cexEntityA]
  queryEntity := fun _ => .error (.other ("query entity: disk failure".data))

/-- Assembler reads where listing the core blocks fails. -/
def failingBlocksOps : AssemblerOps where
  listBlocks := fun _ => .error (.other ("disk failure".data))
  listSummaries := fun _ _ => .ok []
  listEntities := fun _ => .ok []
  queryEntity := fun _ => .ok []

/-- The fact content on which the failing archival store below rejects. -/
def boomContent : Str := "boom".data

/-- The store-backed ingest writes, with the archival write failing on one
designated content (modelling an engine failure mid-sequence). -/
def failingFactOps : IngestOps DB :=
  { memIngestOps none with
    addArchival := fun db content tags emb =>
      if content = boomContent then .error (.other ("database is locked".data))
      else archivalAdd db content tags emb }

/-- A fact stored before the failing one. -/
def factOkW : Fact := ⟨"ok fact".data, []⟩

/-- The fact whose archival write fails. -/
def factBoomW : Fact := ⟨boomContent, []⟩

/-- A fact after the failing one, never reached. -/
def factNeverW : Fact := ⟨"never stored".data, []⟩

/-- An extraction result whose second fact hits the failing write. -/
def resW : ExtractionResult := ⟨[], [factOkW, factBoomW, factNeverW], [], "s".data⟩

/-- An embedding provider whose every call fails. -/
def failingEmbed : Str → Except Err (List Nat) :=
  fun _ => .error (.other ("embed: connection refused".data))

/-- A fact ingested while the embedding provider is down. -/
def factEmbW : Fact := ⟨"fact with no vector".data, ["t".data]⟩

/-- A backend response wrapped in a markdown code fence. -/
def fencedSample : Str := "```json\nnull\n```".data

/-- A decoder that records the exact text it was handed. -/
def capturingDecode : Str → Except Err ExtractionResult :=
  fun s => .error (.other s)

/-- The UNIQUE(subject_id, predicate, object_id) key test on a relation row. -/
def tripleMatch (sid : Int) (p : Str) (oid : Int) : RelationRow → Bool :=
  fun r => decide (r.subjectId = sid ∧ r.predicate = p ∧ r.objectId = oid)

/-- A graph with one entity and one self-loop relation on it. -/
def graphWitnessDB : DB :=
  ⟨[], [], [⟨1, "A".data, [], 0⟩], [⟨1, 1, "likes".data, 1, [], 0⟩], [],
   1, 1, 2, 2, 1, 1⟩

/-- An archival row stored without an embedding. -/
def c10row1 : ArchivalEntry := ⟨1, "no embedding".data, [], none, 0⟩

/-- An archival row stored with an embedding. -/
def c10row2 : ArchivalEntry := ⟨2, "has embedding".data, [], some [1, 2, 3, 4], 1⟩

/-- A store holding one plain and one embedded archival row. -/
def c10db : DB := ⟨[], [c10row1, c10row2], [], [], [], 1, 3, 1, 1, 1, 2⟩

/-! ## Shared lemmas -/

theorem perm_insertSorted (le : α → α → Bool) (x : α) (l : List α) :
    (insertSorted le x l).Perm (x :: l) := by
  induction l with
  | nil => simp [insertSorted]
  | cons y ys ih =>
    simp only [insertSorted]
    by_cases h : le x y = true
    · simp [h]
    · simp only [h, if_false]
      exact (ih.cons y).trans (List.Perm.swap x y ys)

theorem perm_sortByLe (le : α → α → Bool) (l : List α) : (sortByLe le l).Perm l := by
  induction l with
  | nil => simp [sortByLe]
  | cons x xs ih =>
    have : sortByLe le (x :: xs) = insertSorted le x (sortByLe le xs) := rfl
    rw [this]
    exact (perm_insertSorted le x (sortByLe le xs)).trans (ih.cons x)

theorem find?_append_of_none {p : α → Bool} {xs ys : List α}
    (h : xs.find? p = none) : (xs ++ ys).find? p = ys.find? p := by
  rw [List.find?_append, h, Option.none_or]

theorem find?_key_nodup {β : Type} [DecidableEq β] (key : α → β) (l : List α) (x : α)
    (hn : (l.map key).Nodup) (hx : x ∈ l) :
    l.find? (fun y => decide (key y = key x)) = some x := by
  induction l with
  | nil => cases hx
  | cons a as ih =>
    rw [List.map_cons, List.nodup_cons] at hn
    rcases List.mem_cons.mp hx with h | h
    · subst h
      simp [List.find?_cons]
    · have hne : ¬ key a = key x := fun he => hn.1 (he ▸ List.mem_map_of_mem key h)
      rw [List.find?_cons_of_neg _ (by simpa using hne)]
      exact ih hn.2 h

theorem applyFacts_append (ops : IngestOps σ) (s : σ) (pre rest : List Fact) :
    applyFacts ops s (pre ++ rest) =
      match applyFacts ops s pre with
      | (s', none) => applyFacts ops s' rest
      | (s', some e) => (s', some e) := by
  induction pre generalizing s with
  | nil => simp [applyFacts]
  | cons f fs ih =>
    simp only [List.cons_append, applyFacts]
    cases h : ops.addArchival s f.content f.tags (embedOf ops f.content) with
    | error e => simp [h]
    | ok p => simp [h, ih]

theorem archivalAdd_ok (db : DB) (c : Str) (tags : List Str) (emb : Option (List Nat)) :
    ∃ x db', archivalAdd db c tags emb = .ok (x, db') ∧
      db'.archival = db.archival ++
        [⟨db.nextArchivalId, c, List.intercalate (",".data) tags, emb, db.now⟩] := by
  simp only [archivalAdd, archivalGetByID]
  cases h : (db.archival ++
      [(⟨db.nextArchivalId, c, List.intercalate (",".data) tags, emb, db.now⟩ :
        ArchivalEntry)]).find? (fun r => decide (r.id = db.nextArchivalId)) with
  | none =>
    exfalso
    rw [List.find?_eq_none] at h
    exact absurd (by simp) (h _ (List.mem_append_right _ (List.mem_singleton_self _)))
  | some r => exact ⟨r, _, rfl, rfl⟩

theorem memIngest_applyFacts_archival_mono
    (prov : Option (Str → Except Err (List Nat))) (db : DB) (fs : List Fact) :
    ∃ more, (applyFacts (memIngestOps prov) db fs).1.archival = db.archival ++ more := by
  induction fs generalizing db with
  | nil => exact ⟨[], by simp [applyFacts]⟩
  | cons f rest ih =>
    obtain ⟨x, db', hadd, harch⟩ :=
      archivalAdd_ok db f.content f.tags (embedOf (memIngestOps prov) f.content)
    obtain ⟨more, hmore⟩ := ih db'
    refine ⟨(⟨db.nextArchivalId, f.content,
        List.intercalate (",".data) f.tags, embedOf (memIngestOps prov) f.content,
        db.now⟩ : ArchivalEntry) :: more, ?_⟩
    simp only [applyFacts]
    have : (memIngestOps prov).addArchival db f.content f.tags
        (embedOf (memIngestOps prov) f.content) = .ok (x, db') := hadd
    rw [this, hmore, harch]
    simp

/-! ## Claim theorems -/

/-- C1 (amended): a failure of one of the three list reads — core blocks,
level-0 summaries, entities — propagates out of build() wrapped with a message
naming the store, and a payload is returned only when those three reads
succeeded; a failing per-entity relation query does not propagate (see the
counterexample). -/
theorem build_read_failure_propagation (ops : AssemblerOps) :
    (∀ e, ops.listBlocks ("core".data) = .error e →
        build ops = .error (e.wrap ("load core blocks: ".data))) ∧
    (∀ bs e, ops.listBlocks ("core".data) = .ok bs →
        ops.listSummaries 0 5 = .error e →
        build ops = .error (e.wrap ("load summaries: ".data))) ∧
    (∀ bs ss e, ops.listBlocks ("core".data) = .ok bs →
        ops.listSummaries 0 5 = .ok ss →
        ops.listEntities [] = .error e →
        build ops = .error (e.wrap ("load entities: ".data))) ∧
    (∀ p, build ops = .ok p →
        ∃ bs ss es, ops.listBlocks ("core".data) = .ok bs ∧
          ops.listSummaries 0 5 = .ok ss ∧ ops.listEntities [] = .ok es ∧
          p = ⟨bs, ss, (collectRelations ops es ([], [])).2⟩) := by
  refine ⟨?_, ?_, ?_, ?_⟩
  · intro e h
    simp [build, h]
  · intro bs e h1 h2
    simp [build, h1, h2]
  · intro bs ss e h1 h2 h3
    simp [build, h1, h2, h3]
  · intro p hp
    unfold build at hp
    cases h1 : ops.listBlocks ("core".data) with
    | error e => rw [h1] at hp; cases hp
    | ok bs =>
      rw [h1] at hp
      cases h2 : ops.listSummaries 0 5 with
      | error e => rw [h2] at hp; cases hp
      | ok ss =>
        rw [h2] at hp
        cases h3 : ops.listEntities [] with
        | error e => rw [h3] at hp; cases hp
        | ok es =>
          rw [h3] at hp
          exact ⟨bs, ss, es, rfl, rfl, rfl, (Except.ok.injEq _ _).mp hp.symm ▸ rfl⟩

/-- C1 witness: when listing the core blocks fails, build() fails with the
wrapped error naming the block store. -/
theorem build_read_failure_propagation_witness :
    build failingBlocksOps = .error (.other ("load core blocks: disk failure".data)) :=
  (build_read_failure_propagation failingBlocksOps).1 (.other ("disk failure".data)) rfl

/-- C1 counterexample: a run of build() in which an underlying read it
performed (the relation query for entity "A", reached because listing entities
returned that entity) fails, yet build() returns a payload — refuting the
claim that any underlying read failure prevents a payload. -/
theorem build_swallows_query_entity_failure :
    build cexAssemblerOps = .ok ⟨[], [], []⟩ ∧
    cexAssemblerOps.listEntities [] = .ok [cexEntityA] ∧
    cexAssemblerOps.queryEntity cexEntityA.name =
      .error (.other ("query entity: disk failure".data)) :=
  ⟨rfl, rfl, rfl⟩

/-- C2: the apply phase of ingest.Run performs the block updates, then the
facts, then the triplets, then the summary, in that fixed order; the first
failing store write aborts the run with that (wrapped) failure; and the state
returned at an abort is exactly the state the prior successful writes
committed — in particular a fact write failing after some facts were stored
keeps every earlier write and performs none after it. -/
theorem run_apply_fixed_order_failfast_no_rollback
    (σ : Type) (ops : IngestOps σ) (s : σ) (res : ExtractionResult) :
    (∀ s1 s2 s3,
        applyBlockUpdates ops s res.blockUpdates = (s1, none) →
        applyFacts ops s1 res.facts = (s2, none) →
        applyTriplets ops s2 res.triplets = (s3, none) →
        runApply ops s res = applySummaryStep ops s3 res.summary) ∧
    (∀ s1 e, applyBlockUpdates ops s res.blockUpdates = (s1, some e) →
        runApply ops s res = (s1, some e)) ∧
    (∀ s1 s2 e,
        applyBlockUpdates ops s res.blockUpdates = (s1, none) →
        applyFacts ops s1 res.facts = (s2, some e) →
        runApply ops s res = (s2, some e)) ∧
    (∀ s1 s2 s3 e,
        applyBlockUpdates ops s res.blockUpdates = (s1, none) →
        applyFacts ops s1 res.facts = (s2, none) →
        applyTriplets ops s2 res.triplets = (s3, some e) →
        runApply ops s res = (s3, some e)) ∧
    (∀ pre f post s1 s2 e,
        res.facts = pre ++ f :: post →
        applyBlockUpdates ops s res.blockUpdates = (s1, none) →
        applyFacts ops s1 pre = (s2, none) →
        ops.addArchival s2 f.content f.tags (embedOf ops f.content) = .error e →
        runApply ops s res = (s2, some (e.wrap ("add fact: ".data)))) := by
  refine ⟨?_, ?_, ?_, ?_, ?_⟩
  · intro s1 s2 s3 h1 h2 h3
    simp [runApply, h1, h2, h3]
  · intro s1 e h1
    simp [runApply, h1]
  · intro s1 s2 e h1 h2
    simp [runApply, h1, h2]
  · intro s1 s2 s3 e h1 h2 h3
    simp [runApply, h1, h2, h3]
  · intro pre f post s1 s2 e hres h1 h2 hfail
    have hfacts : applyFacts ops s1 res.facts = (s2, some (e.wrap ("add fact: ".data))) := by
      rw [hres, applyFacts_append, h2]
      simp [applyFacts, hfail]
    simp [runApply, h1, hfacts]

/-- C2 witness: with the second of three facts hitting a failing archival
write, the run aborts with that failure and the final state is the state after
the first fact was committed. -/
theorem run_apply_fixed_order_failfast_no_rollback_witness :
    runApply failingFactOps emptyDB resW =
      ((applyFacts failingFactOps emptyDB [factOkW]).1,
       some (.other ("add fact: database is locked".data))) :=
  (run_apply_fixed_order_failfast_no_rollback DB failingFactOps emptyDB resW).2.2.2.2
    [factOkW] factBoomW [factNeverW] emptyDB
    ((applyFacts failingFactOps emptyDB [factOkW]).1)
    (.other ("database is locked".data)) rfl rfl rfl rfl

theorem isPrefixOf_append_self [BEq α] [LawfulBEq α] (xs ys : List α) :
    List.isPrefixOf xs (xs ++ ys) = true := by
  induction xs with
  | nil => simp [List.isPrefixOf]
  | cons a as ih =>
    rw [List.cons_append, List.isPrefixOf]
    simp [ih]

theorem isSuffixOf_append_self [BEq α] [LawfulBEq α] (xs ys : List α) :
    List.isSuffixOf ys (xs ++ ys) = true := by
  unfold List.isSuffixOf
  rw [List.reverse_append]
  exact isPrefixOf_append_self ys.reverse xs.reverse

theorem dropWhile_cons_nonspace (c : Char) (hc : goIsSpace c = false) (l : Str) :
    (c :: l).dropWhile goIsSpace = c :: l := by
  rw [List.dropWhile_cons, hc]
  simp

theorem trimRight_append_singleton_nonspace (ys : Str) (c : Char)
    (hc : goIsSpace c = false) : trimRight (ys ++ [c]) = ys ++ [c] := by
  unfold trimRight
  rw [List.reverse_append]
  simp only [List.reverse_cons, List.reverse_nil, List.nil_append, List.singleton_append]
  rw [List.dropWhile_cons, hc]
  simp

theorem trimRight_append_newline (body : Str) :
    trimRight (body ++ ['\n']) = trimRight body := by
  unfold trimRight
  rw [List.reverse_append]
  simp only [List.reverse_cons, List.reverse_nil, List.nil_append, List.singleton_append]
  rw [List.dropWhile_cons]
  simp [goIsSpace]

theorem trimSpace_append_newline (body : Str) :
    trimSpace (body ++ ['\n']) = trimSpace body := by
  unfold trimSpace
  rw [trimRight_append_newline]

theorem findIdx?_newline_append (xs rest : Str) (hxs : xs.contains '\n' = false) :
    ∀ i, List.findIdx? (fun c => decide (c = '\n')) (xs ++ '\n' :: rest) i =
      some (i + xs.length) := by
  induction xs with
  | nil =>
    intro i
    simp [List.findIdx?_cons]
  | cons a as ih =>
    intro i
    rw [List.contains_cons] at hxs
    have ha : ('\n' == a) = false := by
      cases h : ('\n' == a) <;> simp_all
    have has : as.contains '\n' = false := by
      cases h : as.contains '\n' <;> simp_all
    have ha' : ¬ a = '\n' := by
      intro h; subst h; simp at ha
    rw [List.cons_append, List.findIdx?_cons]
    simp only [decide_eq_true_eq, ha', if_false]
    rw [ih has (i + 1)]
    congr 1
    simp only [List.length_cons]
    omega

/-- C3 (amended): the claude CLI backend's response handling strips the code
fence from the trimmed output before handing it to the extraction-schema
decoder, and for any fence-wrapped string (opening fence with an optional
newline-free language tag, body, closing fence) the stripping yields the
trimmed body.  The other two backends parse verbatim — see the
counterexample. -/
theorem strip_code_fences_claude_path :
    (∀ lang body : Str, lang.contains '\n' = false →
        stripCodeFences
          (fenceMarker ++ (lang ++ ('\n' :: (body ++ ('\n' :: fenceMarker))))) =
          trimSpace body) ∧
    (∀ (decode : Str → Except Err ExtractionResult) (stdout : Str),
        trimSpace stdout ≠ [] →
        claudeParseOutput decode stdout = decode (stripCodeFences (trimSpace stdout))) := by
  constructor
  · intro lang body hlang
    have hw : fenceMarker ++ (lang ++ ('\n' :: (body ++ ('\n' :: fenceMarker)))) =
        ((fenceMarker ++ lang) ++ '\n' :: (body ++ ('\n' :: fenceMarker))) := by
      simp [List.append_assoc]
    have hw2 : fenceMarker ++ (lang ++ ('\n' :: (body ++ ('\n' :: fenceMarker)))) =
        (fenceMarker ++ (lang ++ ('\n' :: (body ++ ['\n', '`', '`'])))) ++ ['`'] := by
      simp [fenceMarker]
    have htrim : trimSpace
        (fenceMarker ++ (lang ++ ('\n' :: (body ++ ('\n' :: fenceMarker))))) =
        fenceMarker ++ (lang ++ ('\n' :: (body ++ ('\n' :: fenceMarker)))) := by
      unfold trimSpace
      rw [hw2, trimRight_append_singleton_nonspace _ _ (by decide), ← hw2]
      show List.dropWhile goIsSpace ('`' :: ('`' :: '`' ::
        (lang ++ ('\n' :: (body ++ ('\n' :: fenceMarker)))))) = _
      rw [dropWhile_cons_nonspace _ (by decide)]
      rfl
    have hpre : List.isPrefixOf fenceMarker
        (fenceMarker ++ (lang ++ ('\n' :: (body ++ ('\n' :: fenceMarker))))) = true :=
      isPrefixOf_append_self _ _
    have hnofence : (fenceMarker ++ lang).contains '\n' = false := by
      cases h : (fenceMarker ++ lang).contains '\n'
      · rfl
      · exfalso
        rw [List.contains_eq_any_beq] at h
        rw [List.any_eq_true] at h
        obtain ⟨c, hc, hbeq⟩ := h
        have hcn : c = '\n' := by simpa [eq_comm] using (beq_iff_eq.mp hbeq)
        subst hcn
        rcases List.mem_append.mp hc with h | h
        · simp [fenceMarker] at h
        · rw [List.contains_eq_any_beq] at hlang
          have := List.any_eq_false.mp hlang _ h
          simp at this
    have hfind : List.findIdx? (fun c => decide (c = '\n'))
        (fenceMarker ++ (lang ++ ('\n' :: (body ++ ('\n' :: fenceMarker))))) =
        some ((fenceMarker ++ lang).length) := by
      rw [hw]
      have := findIdx?_newline_append (fenceMarker ++ lang)
        (body ++ ('\n' :: fenceMarker)) hnofence 0
      simpa using this
    have hdrop : (fenceMarker ++ (lang ++ ('\n' :: (body ++ ('\n' :: fenceMarker))))).drop
        ((fenceMarker ++ lang).length + 1) = body ++ ('\n' :: fenceMarker) := by
      rw [hw]
      have := @List.drop_append Char (fenceMarker ++ lang)
        ('\n' :: (body ++ ('\n' :: fenceMarker))) 1
      simpa using this
    have hsuf : List.isSuffixOf fenceMarker (body ++ ('\n' :: fenceMarker)) = true := by
      have : body ++ ('\n' :: fenceMarker) = (body ++ ['\n']) ++ fenceMarker := by
        simp
      rw [this]
      exact isSuffixOf_append_self _ _
    have hlen : (body ++ ('\n' :: fenceMarker)).length - 3 = body.length + 1 := by
      simp [fenceMarker]
    have htake : (body ++ ('\n' :: fenceMarker)).take (body.length + 1) =
        body ++ ['\n'] := by
      have := @List.take_append Char body ('\n' :: fenceMarker) 1
      simpa [fenceMarker] using this
    simp only [stripCodeFences, htrim, hpre, hfind, hdrop, hsuf, hlen, htake,
      if_true, trimSpace_append_newline]
  · intro decode stdout hne
    unfold claudeParseOutput
    simp [hne]

/-- C3 witness: a concrete fenced response with language tag "json" strips to
its body, and a non-empty claude output reaches the decoder fence-stripped. -/
theorem strip_code_fences_claude_path_witness :
    stripCodeFences
      (fenceMarker ++ (("json".data) ++ ('\n' :: (("null".data) ++ ('\n' :: fenceMarker))))) =
      trimSpace ("null".data) ∧
    claudeParseOutput capturingDecode fencedSample =
      capturingDecode (stripCodeFences (trimSpace fencedSample)) :=
  ⟨strip_code_fences_claude_path.1 ("json".data) ("null".data) rfl,
   strip_code_fences_claude_path.2 capturingDecode fencedSample (by decide)⟩

/-- C3 counterexample: the ollama backend hands its fence-wrapped response
content to the extraction-schema decoder verbatim — the decoder receives the
text with the fence markers still present (stripping would have changed it),
refuting the claim that every backend's response is fence-stripped before
parsing. -/
theorem ollama_parses_fenced_text_verbatim :
    ollamaParseContent capturingDecode fencedSample = .error (.other fencedSample) ∧
    stripCodeFences fencedSample ≠ fencedSample ∧
    List.isPrefixOf fenceMarker fencedSample = true := by
  refine ⟨rfl, ?_, by decide⟩
  decide

/-- C4: when the embedding provider is present and its Embed call fails for a
fact, the fact's archival write still happens, with no embedding vector
attached, and the failure does not surface: the phase behaves exactly as an
archival write with an empty embedding; against the concrete stores the fact
row is committed with `embedding = none`. -/
theorem embed_failure_never_blocks_fact
    (σ : Type) (ops : IngestOps σ) (s : σ) (f : Fact) (rest : List Fact)
    (E : Str → Except Err (List Nat)) (e : Err)
    (hprov : ops.embedProv = some E) (hfail : E f.content = .error e) :
    (applyFacts ops s (f :: rest) =
      match ops.addArchival s f.content f.tags none with
      | .error e' => (s, some (e'.wrap ("add fact: ".data)))
      | .ok (_, s') => applyFacts ops s' rest) ∧
    (∀ db : DB, ∃ more,
      (applyFacts (memIngestOps (some E)) db (f :: rest)).1.archival =
        db.archival ++
          (⟨db.nextArchivalId, f.content, List.intercalate (",".data) f.tags,
            none, db.now⟩ :: more)) := by
  have hemb : embedOf ops f.content = none := by
    simp [embedOf, hprov, hfail]
  have hembm : embedOf (memIngestOps (some E)) f.content = none := by
    simp [embedOf, memIngestOps, hfail]
  constructor
  · simp only [applyFacts, hemb]
  · intro db
    obtain ⟨x, db', hadd, harch⟩ := archivalAdd_ok db f.content f.tags none
    obtain ⟨more, hmore⟩ := memIngest_applyFacts_archival_mono (some E) db' rest
    refine ⟨more, ?_⟩
    simp only [applyFacts, hembm]
    have : (memIngestOps (some E)).addArchival db f.content f.tags none =
        .ok (x, db') := hadd
    rw [this, hmore, harch]
    simp

/-- C4 witness: with a provider whose Embed always fails, a fact ingested into
the empty store lands in the archival table with no embedding vector. -/
theorem embed_failure_never_blocks_fact_witness :
    ∃ more, (applyFacts (memIngestOps (some failingEmbed)) emptyDB [factEmbW]).1.archival =
      emptyDB.archival ++
        (⟨1, factEmbW.content, List.intercalate (",".data) factEmbW.tags,
          none, 0⟩ :: more) :=
  (embed_failure_never_blocks_fact DB (memIngestOps (some failingEmbed)) emptyDB
    factEmbW [] failingEmbed (.other ("embed: connection refused".data)) rfl rfl).2 emptyDB

/-- C5: creating a block under a fresh label succeeds, getByLabel on that
label returns the created block with the content round-tripped exactly, and a
second create under the same label (any type and content) fails with the
unique-label conflict. -/
theorem block_create_roundtrip_and_conflict
    (db : DB) (label blockType content t2 c2 : Str)
    (hlabel : ∀ b ∈ db.blocks, ¬ b.label = label)
    (hid : ∀ b ∈ db.blocks, b.id < db.nextBlockId) :
    ∃ bl db', blockCreate db label blockType content = .ok (bl, db') ∧
      blockGetByLabel db' label = .ok bl ∧ bl.content = content ∧
      blockCreate db' label t2 c2 = .error (.conflict createBlockConflictMsg) := by
  have hany : db.blocks.any (fun b => decide (b.label = label)) = false :=
    List.any_eq_false.mpr (fun b hb => by simpa using hlabel b hb)
  have hfid : db.blocks.find? (fun x => decide (x.id = db.nextBlockId)) = none :=
    List.find?_eq_none.mpr (fun x hx => by simp [Int.ne_of_lt (hid x hx)])
  have hflab : db.blocks.find? (fun x => decide (x.label = label)) = none :=
    List.find?_eq_none.mpr (fun x hx => by simpa using hlabel x hx)
  refine ⟨⟨db.nextBlockId, label,
      if blockType = [] then ("core".data) else blockType, content, db.now, db.now⟩,
    { db with
      blocks := db.blocks ++ [⟨db.nextBlockId, label,
        if blockType = [] then ("core".data) else blockType, content, db.now, db.now⟩],
      nextBlockId := db.nextBlockId + 1, now := db.now + 1 }, ?_, ?_, rfl, ?_⟩
  · simp only [blockCreate, hany, Bool.false_eq_true, if_false, blockGetByID]
    rw [find?_append_of_none hfid]
    simp
  · simp only [blockGetByLabel]
    rw [find?_append_of_none hflab]
    simp
  · have htrue : (db.blocks ++ [(⟨db.nextBlockId, label,
        if blockType = [] then ("core".data) else blockType,
        content, db.now, db.now⟩ : Block)]).any
        (fun b => decide (b.label = label)) = true :=
      List.any_eq_true.mpr
        ⟨_, List.mem_append_right _ (List.mem_singleton_self _), by simp⟩
    simp [blockCreate, htrue]

/-- C5 witness: on the empty store, create("human", "core", "Stuart Kennedy")
round-trips through getByLabel and a second create conflicts. -/
theorem block_create_roundtrip_and_conflict_witness :
    ∃ bl db', blockCreate emptyDB ("human".data) ("core".data) ("Stuart Kennedy".data) =
        .ok (bl, db') ∧
      blockGetByLabel db' ("human".data) = .ok bl ∧
      bl.content = ("Stuart Kennedy".data) ∧
      blockCreate db' ("human".data) ("core".data) ("v2".data) =
        .error (.conflict createBlockConflictMsg) :=
  block_create_roundtrip_and_conflict emptyDB ("human".data) ("core".data)
    ("Stuart Kennedy".data) ("core".data) ("v2".data)
    (by simp [emptyDB]) (by simp [emptyDB])

/-- C6: updating a label with no existing block returns the not-found error of
the re-read and the UPDATE statement leaves the table unchanged, while
deleting an absent label succeeds and also leaves the table unchanged. -/
theorem block_update_missing_and_delete_idempotent
    (db : DB) (label content : Str)
    (habs : ∀ b ∈ db.blocks, ¬ b.label = label) :
    blockUpdate db label content = .error (.notFound (getBlockNotFoundMsg label)) ∧
    (blockUpdateExec db label content).blocks = db.blocks ∧
    blockDelete db label = .ok { db with now := db.now + 1 } := by
  have hmap : db.blocks.map (fun b =>
      if b.label = label then { b with content := content, updatedAt := db.now }
      else b) = db.blocks := by
    have hpt : ∀ b ∈ db.blocks, (fun b =>
        if b.label = label then { b with content := content, updatedAt := db.now }
        else b) b = id b := fun b hb => by simp [habs b hb]
    rw [List.map_congr_left hpt, List.map_id]
  have hexec : (blockUpdateExec db label content).blocks = db.blocks := by
    simp [blockUpdateExec, hmap]
  have hflab : db.blocks.find? (fun x => decide (x.label = label)) = none :=
    List.find?_eq_none.mpr (fun x hx => by simpa using habs x hx)
  have hfil : db.blocks.filter (fun b => !decide (b.label = label)) = db.blocks :=
    List.filter_eq_self.mpr (fun b hb => by simpa using habs b hb)
  refine ⟨?_, hexec, ?_⟩
  · simp only [blockUpdate, blockGetByLabel, hexec, hflab]
  · simp [blockDelete, hfil]

/-- C6 witness: on the empty store, update("human", ...) fails with NotFound
while delete("human") is a successful no-op. -/
theorem block_update_missing_and_delete_idempotent_witness :
    blockUpdate emptyDB ("human".data) ("x".data) =
      .error (.notFound (getBlockNotFoundMsg ("human".data))) ∧
    (blockUpdateExec emptyDB ("human".data) ("x".data)).blocks = emptyDB.blocks ∧
    blockDelete emptyDB ("human".data) = .ok { emptyDB with now := emptyDB.now + 1 } :=
  block_update_missing_and_delete_idempotent emptyDB ("human".data) ("x".data)
    (by simp [emptyDB])

/-- C7: adding an archival entry stores and returns the tags as the comma-join
of the input list in order, the empty list joining to the empty string, and
the stored row reads back identically by id. -/
theorem archival_add_tags_comma_join
    (db : DB) (content : Str) (tags : List Str) (emb : Option (List Nat))
    (hid : ∀ r ∈ db.archival, r.id < db.nextArchivalId) :
    ∃ en db', archivalAdd db content tags emb = .ok (en, db') ∧
      en.tags = List.intercalate (",".data) tags ∧
      (tags = [] → en.tags = []) ∧
      archivalGetByID db' en.id = .ok en := by
  have hfid : db.archival.find? (fun x => decide (x.id = db.nextArchivalId)) = none :=
    List.find?_eq_none.mpr (fun x hx => by simp [Int.ne_of_lt (hid x hx)])
  refine ⟨⟨db.nextArchivalId, content, List.intercalate (",".data) tags, emb, db.now⟩,
    { db with
      archival := db.archival ++
        [⟨db.nextArchivalId, content, List.intercalate (",".data) tags, emb, db.now⟩],
      nextArchivalId := db.nextArchivalId + 1, now := db.now + 1 },
    ?_, rfl, fun h => by subst h; rfl, ?_⟩
  · simp only [archivalAdd, archivalGetByID]
    rw [find?_append_of_none hfid]
    simp
  · simp only [archivalGetByID]
    rw [find?_append_of_none hfid]
    simp

/-- C7 witness: two tags join with a comma; the empty tag list joins to the
empty string. -/
theorem archival_add_tags_comma_join_witness :
    (∃ en db', archivalAdd emptyDB ("Go is great".data) [("tech".data), ("opinion".data)]
        none = .ok (en, db') ∧
      en.tags = List.intercalate (",".data) [("tech".data), ("opinion".data)] ∧
      ([("tech".data), ("opinion".data)] = ([] : List Str) → en.tags = []) ∧
      archivalGetByID db' en.id = .ok en) ∧
    List.intercalate (",".data) [("tech".data), ("opinion".data)] = ("tech,opinion".data) ∧
    List.intercalate (",".data) ([] : List Str) = [] :=
  ⟨archival_add_tags_comma_join emptyDB ("Go is great".data)
      [("tech".data), ("opinion".data)] none (by simp [emptyDB]),
   by decide, rfl⟩

theorem ensureEntity_shape (db : DB) (n t : Str) (i : Int) (db' : DB)
    (h : ensureEntity db n t = .ok (i, db')) :
    (entityIdOf db n = some i ∧ db' = db) ∨
    (entityIdOf db n = none ∧ i = db.nextEntityId ∧
      db' = { db with
        entities := db.entities ++ [⟨db.nextEntityId, n, t, db.now⟩],
        nextEntityId := db.nextEntityId + 1,
        now := db.now + 1 }) := by
  unfold ensureEntity at h
  cases hf : db.entities.find? (fun e => decide (e.name = n)) with
  | some e =>
    rw [hf] at h
    simp only [Except.ok.injEq, Prod.mk.injEq] at h
    obtain ⟨h1, h2⟩ := h
    left
    refine ⟨?_, h2.symm⟩
    unfold entityIdOf
    rw [hf]
    simp [h1]
  | none =>
    rw [hf] at h
    simp only [Except.ok.injEq, Prod.mk.injEq] at h
    obtain ⟨h1, h2⟩ := h
    right
    refine ⟨?_, h1.symm, h2.symm⟩
    unfold entityIdOf
    rw [hf]
    rfl

theorem ensureEntity_ok (db : DB) (n t : Str) :
    ∃ i db', ensureEntity db n t = .ok (i, db') := by
  unfold ensureEntity
  cases db.entities.find? (fun e => decide (e.name = n)) with
  | some e => exact ⟨e.id, db, rfl⟩
  | none => exact ⟨_, _, rfl⟩

theorem ensureEntity_of_present (db : DB) (n t : Str) (i : Int)
    (h : entityIdOf db n = some i) : ensureEntity db n t = .ok (i, db) := by
  unfold entityIdOf at h
  unfold ensureEntity
  cases hf : db.entities.find? (fun e => decide (e.name = n)) with
  | none => rw [hf] at h; cases h
  | some e =>
    rw [hf] at h
    simp only [Option.map_some', Option.some.injEq] at h
    simp [h]

theorem entityIdOf_eq_of_entities (db1 db2 : DB) (h : db1.entities = db2.entities)
    (n : Str) : entityIdOf db1 n = entityIdOf db2 n := by
  unfold entityIdOf
  rw [h]

theorem entityIdOf_extend (db db' : DB) (ext : List Entity)
    (h : db'.entities = db.entities ++ ext) (m : Str) (j : Int)
    (hm : entityIdOf db m = some j) : entityIdOf db' m = some j := by
  unfold entityIdOf at *
  rw [h, List.find?_append]
  cases hf : db.entities.find? (fun e => decide (e.name = m)) with
  | none => rw [hf] at hm; cases hm
  | some e =>
    rw [hf] at hm
    simp_all

theorem ensureEntity_resolves (db : DB) (n t : Str) (i : Int) (db' : DB)
    (h : ensureEntity db n t = .ok (i, db')) : entityIdOf db' n = some i := by
  rcases ensureEntity_shape db n t i db' h with ⟨h1, rfl⟩ | ⟨h1, rfl, rfl⟩
  · exact h1
  · unfold entityIdOf at *
    rw [show ({ db with
        entities := db.entities ++ [⟨db.nextEntityId, n, t, db.now⟩],
        nextEntityId := db.nextEntityId + 1,
        now := db.now + 1 } : DB).entities =
      db.entities ++ [⟨db.nextEntityId, n, t, db.now⟩] from rfl]
    rw [List.find?_append]
    cases hf : db.entities.find? (fun e => decide (e.name = n)) with
    | some e => rw [hf] at h1; cases h1
    | none => simp

theorem ensureEntity_same_relations (db : DB) (n t : Str) (i : Int) (db' : DB)
    (h : ensureEntity db n t = .ok (i, db')) :
    db'.relations = db.relations ∧ db'.nextRelationId = db.nextRelationId := by
  rcases ensureEntity_shape db n t i db' h with ⟨_, rfl⟩ | ⟨_, _, rfl⟩ <;> exact ⟨rfl, rfl⟩

theorem graphAddRelation_present (db : DB) (s p o m : Str) (sid oid : Int)
    (hs : entityIdOf db s = some sid) (ho : entityIdOf db o = some oid)
    (hcount : 0 < db.relations.countP (tripleMatch sid p oid)) :
    graphAddRelation db s p o m = .ok db := by
  have h1 := ensureEntity_of_present db s [] sid hs
  have h2 := ensureEntity_of_present db o [] oid ho
  have hany : db.relations.any (fun r =>
      decide (r.subjectId = sid ∧ r.predicate = p ∧ r.objectId = oid)) = true := by
    rw [List.countP_pos_iff] at hcount
    obtain ⟨r, hr, hpr⟩ := hcount
    exact List.any_eq_true.mpr ⟨r, hr, by simpa [tripleMatch] using hpr⟩
  simp only [graphAddRelation, h1, h2, hany, if_true]

theorem graphAddRelation_spec (db : DB) (s p o m : Str)
    (hkeys : ∀ (sid oid : Int) (pr : Str),
      db.relations.countP (tripleMatch sid pr oid) ≤ 1) :
    ∃ dbA sid oid, graphAddRelation db s p o m = .ok dbA ∧
      entityIdOf dbA s = some sid ∧ entityIdOf dbA o = some oid ∧
      dbA.relations.countP (tripleMatch sid p oid) = 1 := by
  obtain ⟨sid, db1, h1⟩ := ensureEntity_ok db s []
  obtain ⟨oid, db2, h2⟩ := ensureEntity_ok db1 o []
  have hrel : db2.relations = db.relations := by
    rw [(ensureEntity_same_relations db1 o [] oid db2 h2).1,
        (ensureEntity_same_relations db s [] sid db1 h1).1]
  have hs2 : entityIdOf db2 s = some sid := by
    have hs1 := ensureEntity_resolves db s [] sid db1 h1
    rcases ensureEntity_shape db1 o [] oid db2 h2 with ⟨_, rfl⟩ | ⟨_, _, rfl⟩
    · exact hs1
    · exact entityIdOf_extend db1 _ _ rfl s sid hs1
  have ho2 : entityIdOf db2 o = some oid := ensureEntity_resolves db1 o [] oid db2 h2
  cases hany : db2.relations.any (fun r =>
      decide (r.subjectId = sid ∧ r.predicate = p ∧ r.objectId = oid)) with
  | true =>
    refine ⟨db2, sid, oid, ?_, hs2, ho2, ?_⟩
    · simp only [graphAddRelation, h1, h2, hany, if_true]
    · have hge : 0 < db2.relations.countP (tripleMatch sid p oid) := by
        rw [List.countP_pos_iff]
        obtain ⟨r, hr, hpr⟩ := List.any_eq_true.mp hany
        exact ⟨r, hr, by simpa [tripleMatch] using hpr⟩
      have hle : db2.relations.countP (tripleMatch sid p oid) ≤ 1 := by
        rw [hrel]
        exact hkeys sid oid p
      omega
  | false =>
    refine ⟨{ db2 with
        relations := db2.relations ++ [(⟨db2.nextRelationId, sid, p, oid, m, db2.now⟩ : RelationRow)],
        nextRelationId := db2.nextRelationId + 1,
        now := db2.now + 1 }, sid, oid, ?_, ?_, ?_, ?_⟩
    · simp only [graphAddRelation, h1, h2, hany, Bool.false_eq_true, if_false]
    · exact (entityIdOf_eq_of_entities _ db2 rfl s).trans hs2
    · exact (entityIdOf_eq_of_entities _ db2 rfl o).trans ho2
    · have hzero : db2.relations.countP (tripleMatch sid p oid) = 0 :=
        List.countP_eq_zero.mpr (fun r hr => by
          simpa [tripleMatch] using List.any_eq_false.mp hany r hr)
      show (db2.relations ++ [(⟨db2.nextRelationId, sid, p, oid, m, db2.now⟩ : RelationRow)]).countP
        (tripleMatch sid p oid) = 1
      rw [List.countP_append, hzero]
      simp [tripleMatch, List.countP_cons]

/-- C8: ensureEntity is idempotent — a second call with the same name (any
type) returns the identical id and leaves the store untouched — and two
identical addRelation calls both succeed and leave exactly one relation row
carrying the resolved (subject, predicate, object) key. -/
theorem ensure_entity_idempotent_and_relation_dedup
    (db : DB) (nm t1 t2 s p o m : Str)
    (hkeys : ∀ (sid oid : Int) (pr : Str),
      db.relations.countP (tripleMatch sid pr oid) ≤ 1) :
    (∃ i db1, ensureEntity db nm t1 = .ok (i, db1) ∧
        ensureEntity db1 nm t2 = .ok (i, db1)) ∧
    (∃ dbA dbB sid oid,
        graphAddRelation db s p o m = .ok dbA ∧
        graphAddRelation dbA s p o m = .ok dbB ∧
        entityIdOf dbB s = some sid ∧ entityIdOf dbB o = some oid ∧
        dbB.relations.countP (tripleMatch sid p oid) = 1) := by
  constructor
  · obtain ⟨i, db1, h1⟩ := ensureEntity_ok db nm t1
    exact ⟨i, db1, h1,
      ensureEntity_of_present db1 nm t2 i (ensureEntity_resolves db nm t1 i db1 h1)⟩
  · obtain ⟨dbA, sid, oid, hA, hsA, hoA, hcA⟩ := graphAddRelation_spec db s p o m hkeys
    have hB := graphAddRelation_present dbA s p o m sid oid hsA hoA (by omega)
    exact ⟨dbA, dbA, sid, oid, hA, hB, hsA, hoA, hcA⟩

/-- C8 witness: on the empty store, ensuring "Stuart" twice (with differing
types) yields the same id, and adding A-[knows]->B twice leaves one row. -/
theorem ensure_entity_idempotent_and_relation_dedup_witness :
    (∃ i db1, ensureEntity emptyDB ("Stuart".data) ("person".data) = .ok (i, db1) ∧
        ensureEntity db1 ("Stuart".data) ("human".data) = .ok (i, db1)) ∧
    (∃ dbA dbB sid oid,
        graphAddRelation emptyDB ("A".data) ("knows".data) ("B".data) [] = .ok dbA ∧
        graphAddRelation dbA ("A".data) ("knows".data) ("B".data) [] = .ok dbB ∧
        entityIdOf dbB ("A".data) = some sid ∧ entityIdOf dbB ("B".data) = some oid ∧
        dbB.relations.countP (tripleMatch sid ("knows".data) oid) = 1) :=
  ensure_entity_idempotent_and_relation_dedup emptyDB ("Stuart".data) ("person".data)
    ("human".data) ("A".data) ("knows".data) ("B".data) []
    (fun sid oid pr => by simp [emptyDB])

theorem relViewOf_id (db : DB) (r : RelationRow) (v : Relation)
    (h : relViewOf db r = some v) : v.id = r.id := by
  unfold relViewOf at h
  cases h1 : db.entities.find? (fun e => decide (e.id = r.subjectId)) with
  | none => rw [h1] at h; cases h
  | some se =>
    rw [h1] at h
    cases h2 : db.entities.find? (fun e => decide (e.id = r.objectId)) with
    | none => rw [h2] at h; cases h
    | some oe =>
      rw [h2] at h
      obtain rfl := Option.some.inj h
      rfl

theorem queryFilter_eq_of_view (db : DB) (name : Str) (x : RelationRow) (v' : Relation)
    (hview : relViewOf db x = some v') :
    queryFilter db name x =
      if v'.subject = name ∨ v'.object = name then some v' else none := by
  unfold queryFilter
  rw [hview]

theorem queryFilter_eq_none_of_view (db : DB) (name : Str) (x : RelationRow)
    (hview : relViewOf db x = none) : queryFilter db name x = none := by
  unfold queryFilter
  rw [hview]

theorem queryFilter_id (db : DB) (name : Str) (x : RelationRow) (v : Relation)
    (h : queryFilter db name x = some v) : v.id = x.id := by
  cases hview : relViewOf db x with
  | none => rw [queryFilter_eq_none_of_view db name x hview] at h; cases h
  | some v' =>
    rw [queryFilter_eq_of_view db name x v' hview] at h
    by_cases hcond : v'.subject = name ∨ v'.object = name
    · rw [if_pos hcond] at h
      have hv := Option.some.inj h
      subst hv
      exact relViewOf_id db x _ hview
    · rw [if_neg hcond] at h
      cases h

theorem countP_filterMap_query (db : DB) (name : Str) (r : RelationRow) (v0 : Relation)
    (hres : relViewOf db r = some v0) :
    ∀ rels : List RelationRow, (rels.map (fun x => x.id)).Nodup → r ∈ rels →
      (rels.filterMap (queryFilter db name)).countP (fun v => decide (v.id = r.id)) =
        if v0.subject = name ∨ v0.object = name then 1 else 0 := by
  intro rels
  induction rels with
  | nil => intro _ hx; cases hx
  | cons x xs ih =>
    intro hn hx
    rw [List.map_cons, List.nodup_cons] at hn
    rcases List.mem_cons.mp hx with rfl | hmem
    · have hzero : (xs.filterMap (queryFilter db name)).countP
          (fun v => decide (v.id = r.id)) = 0 := by
        apply List.countP_eq_zero.mpr
        intro v hv
        obtain ⟨y, hy, hqy⟩ := List.mem_filterMap.mp hv
        have hvy : v.id = y.id := queryFilter_id db name y v hqy
        have : ¬ y.id = r.id := by
          intro he
          exact hn.1 (he ▸ List.mem_map_of_mem (fun x => x.id) hy)
        simp [hvy, this]
      rw [List.filterMap_cons, queryFilter_eq_of_view db name r v0 hres]
      by_cases hcond : v0.subject = name ∨ v0.object = name
      · rw [if_pos hcond, if_pos hcond, List.countP_cons, hzero]
        have : v0.id = r.id := relViewOf_id db r v0 hres
        simp [this]
      · rw [if_neg hcond, if_neg hcond]
        exact hzero
    · have hxid : ¬ x.id = r.id := by
        intro he
        exact hn.1 (he ▸ List.mem_map_of_mem (fun x => x.id) hmem)
      rw [List.filterMap_cons]
      cases hq : queryFilter db name x with
      | none => exact ih hn.2 hmem
      | some vx =>
        rw [List.countP_cons]
        have hvx : vx.id = x.id := queryFilter_id db name x vx hq
        rw [ih hn.2 hmem]
        simp [hvx, hxid]

/-- C9: queryEntity(name) returns exactly the relations in which the name is
the subject or the object: a stored relation row whose endpoints resolve to
names sn and obn appears in the result exactly once when sn or obn is the
queried name (once, not twice, even when both endpoints are the name) and not
at all otherwise; and every returned relation is the resolved view of some
stored row whose subject or object is the name. -/
theorem query_entity_exactly_once (db : DB) (name : Str)
    (hids : (db.relations.map (fun r => r.id)).Nodup) :
    (∀ r ∈ db.relations, ∀ sn obn : Str,
        entityNameOf db r.subjectId = some sn →
        entityNameOf db r.objectId = some obn →
        (queryEntity db name).countP (fun v => decide (v.id = r.id)) =
          if sn = name ∨ obn = name then 1 else 0) ∧
    (∀ v ∈ queryEntity db name,
        (v.subject = name ∨ v.object = name) ∧
        ∃ r ∈ db.relations, relViewOf db r = some v) := by
  constructor
  · intro r hr sn obn hsn hobn
    unfold entityNameOf at hsn hobn
    cases hf1 : db.entities.find? (fun e => decide (e.id = r.subjectId)) with
    | none => rw [hf1] at hsn; cases hsn
    | some se =>
      rw [hf1] at hsn
      simp only [Option.map_some', Option.some.injEq] at hsn
      cases hf2 : db.entities.find? (fun e => decide (e.id = r.objectId)) with
      | none => rw [hf2] at hobn; cases hobn
      | some oe =>
        rw [hf2] at hobn
        simp only [Option.map_some', Option.some.injEq] at hobn
        have hview : relViewOf db r =
            some ⟨r.id, sn, r.predicate, obn, r.metadata, r.createdAt⟩ := by
          subst hsn
          subst hobn
          unfold relViewOf
          rw [hf1, hf2]
        have hperm : (queryEntity db name).Perm
            (db.relations.filterMap (queryFilter db name)) :=
          perm_sortByLe _ _
        rw [hperm.countP_eq]
        exact countP_filterMap_query db name r _ hview db.relations hids hr
  · intro v hv
    have hperm : (queryEntity db name).Perm
        (db.relations.filterMap (queryFilter db name)) :=
      perm_sortByLe _ _
    have hv' := hperm.mem_iff.mp hv
    obtain ⟨r, hr, hqr⟩ := List.mem_filterMap.mp hv'
    cases hview : relViewOf db r with
    | none => rw [queryFilter_eq_none_of_view db name r hview] at hqr; cases hqr
    | some v' =>
      rw [queryFilter_eq_of_view db name r v' hview] at hqr
      by_cases hcond : v'.subject = name ∨ v'.object = name
      · rw [if_pos hcond] at hqr
        obtain rfl := Option.some.inj hqr
        exact ⟨hcond, r, hr, hview⟩
      · rw [if_neg hcond] at hqr
        cases hqr

/-- C9 witness: in a graph with the single self-loop A-[likes]->A, querying
"A" returns that relation exactly once, not twice. -/
theorem query_entity_exactly_once_witness :
    (queryEntity graphWitnessDB ("A".data)).countP
      (fun v => decide (v.id = (1 : Int))) = 1 := by
  have h := (query_entity_exactly_once graphWitnessDB ("A".data) (by decide)).1
    ⟨1, 1, "likes".data, 1, [], 0⟩ (by decide) ("A".data) ("A".data) rfl rfl
  simpa using h

/-- C10: entries returned by search and list carry no embedding even when the
stored row holds one, while getByID returns the stored row (embedding
included) and allWithEmbeddings returns exactly the stored rows holding an
embedding, bytes intact. -/
theorem search_list_hide_embeddings
    (fts : Str → List ArchivalEntry → List ArchivalEntry)
    (db : DB) (q tag : Str) (lim1 lim2 : Int)
    (hids : (db.archival.map (fun r => r.id)).Nodup) :
    (∀ en ∈ archivalSearch fts db q lim1, en.embedding = none) ∧
    (∀ en ∈ archivalList db tag lim2, en.embedding = none) ∧
    (∀ r ∈ db.archival, archivalGetByID db r.id = .ok r) ∧
    allWithEmbeddings db = db.archival.filter (fun r => r.embedding.isSome) ∧
    (∀ r ∈ allWithEmbeddings db, r ∈ db.archival ∧ r.embedding.isSome = true) := by
  refine ⟨?_, ?_, ?_, rfl, ?_⟩
  · intro en hen
    obtain ⟨r, _, hr⟩ := List.mem_map.mp hen
    rw [← hr]
  · intro en hen
    obtain ⟨r, _, hr⟩ := List.mem_map.mp hen
    rw [← hr]
  · intro r hr
    have hfind := find?_key_nodup (fun x : ArchivalEntry => x.id) db.archival r hids hr
    unfold archivalGetByID
    rw [show db.archival.find? (fun x => decide (x.id = r.id)) = some r from hfind]
  · intro r hr
    have hr' : r ∈ db.archival.filter (fun x => x.embedding.isSome) := hr
    have hm := List.mem_filter.mp hr'
    exact ⟨hm.1, hm.2⟩

/-- C10 witness: in a store with an embedded row, getByID returns the row with
its embedding intact, allWithEmbeddings returns exactly that row, and the same
row surfaces through search with its embedding blanked. -/
theorem search_list_hide_embeddings_witness :
    archivalGetByID c10db c10row2.id = .ok c10row2 ∧
    ({ c10row2 with embedding := none } : ArchivalEntry).embedding = none := by
  have h := search_list_hide_embeddings (fun _ rows => rows) c10db
    ("q".data) [] 0 0 (by decide)
  exact ⟨h.2.2.1 c10row2 (by decide),
    h.1 { c10row2 with embedding := none } (by decide)⟩

end Botmem
